import Mathlib

/-!
Verification development for the Riksarkivet document viewer's ALTO markup
parser (`src/alto.py` / `server.py` : `parse_alto_xml`), together with a
spec-modelled version of the richer parser module exercised by the test
suite (`detect_and_parse`, confidence aggregation, PAGE XML path), whose
source file is not present in the repository.

The Python implementation drives everything through `re` patterns.  We embed
the exact pattern subset it uses (sequences of literals, greedy `[^>]*`,
greedy `(\d+)` / `([^"]*)` captures and a lazy `([\s\S]*?)` capture) with a
faithful backtracking matcher over `List Char`: greedy pieces try the
longest split first, lazy pieces the shortest, `search` tries start
positions left to right, `finditer` yields the leftmost non-overlapping
matches.  `\d` is modelled as ASCII `0`-`9` (the markup at hand is ASCII).
-/

namespace AltoSpec

/-- Character classes occurring in the patterns of `parse_alto_xml`. -/
inductive CClass where
  | notGt
  | digit
  | notQuote
  deriving DecidableEq, Repr

/-- Membership test for a character class. -/
def cmem : CClass → Char → Bool
  | .notGt, c => c != '>'
  | .digit, c => c.isDigit
  | .notQuote, c => c != '"'

/-- One token of a pattern: a literal, a greedy non-capturing class star,
a greedy capturing class star, a greedy capturing class plus, or the lazy
any-character capturing star. -/
inductive RTok where
  | lit (l : List Char)
  | star (c : CClass)
  | capStar (c : CClass)
  | capPlus (c : CClass)
  | capLazy
  deriving DecidableEq, Repr

/-- The splits `(p, r)` of `s` with `p ++ r = s` and `p` inside class `c`,
longest `p` first (greedy backtracking order). -/
def splitsGreedy (c : CClass) (s : List Char) : List (List Char × List Char) :=
  let p := s.takeWhile (cmem c)
  let r := s.dropWhile (cmem c)
  ((List.range (p.length + 1)).reverse).map (fun k => (p.take k, p.drop k ++ r))

/-- All splits of `s`, shortest prefix first (lazy order). -/
def splitsLazy (s : List Char) : List (List Char × List Char) :=
  (List.range (s.length + 1)).map (fun k => (s.take k, s.drop k))

/-- First non-`none` value of `f` over `l`, in order: the backtracking
priority rule. -/
def firstSome (l : List α) (f : α → Option β) : Option β :=
  match l with
  | [] => none
  | x :: xs =>
    match f x with
    | some b => some b
    | none => firstSome xs f

/-- Backtracking matcher: match a token sequence against a prefix of `s`,
returning the captures (in group order) and the remaining suffix. -/
def matchToks : List RTok → List Char → Option (List (List Char) × List Char)
  | [], s => some ([], s)
  | .lit l :: ts, s =>
    if l.isPrefixOf s then matchToks ts (s.drop l.length) else none
  | .star c :: ts, s =>
    firstSome (splitsGreedy c s) (fun pr => matchToks ts pr.2)
  | .capStar c :: ts, s =>
    firstSome (splitsGreedy c s)
      (fun pr => (matchToks ts pr.2).map (fun cr => (pr.1 :: cr.1, cr.2)))
  | .capPlus c :: ts, s =>
    firstSome (splitsGreedy c s)
      (fun pr =>
        if pr.1.isEmpty then none
        else (matchToks ts pr.2).map (fun cr => (pr.1 :: cr.1, cr.2)))
  | .capLazy :: ts, s =>
    firstSome (splitsLazy s)
      (fun pr => (matchToks ts pr.2).map (fun cr => (pr.1 :: cr.1, cr.2)))

/-- Embedding of `re.search`: try each start position left to right; return the skipped
prefix, the captures and the suffix after the match. -/
def searchSplit (p : List RTok) : List Char → Option (List Char × List (List Char) × List Char)
  | [] => (matchToks p []).map (fun cr => (([] : List Char), cr.1, cr.2))
  | c :: cs =>
    match matchToks p (c :: cs) with
    | some cr => some ([], cr.1, cr.2)
    | none => (searchSplit p cs).map (fun r => (c :: r.1, r.2.1, r.2.2))

/-- One step per fuel unit of the `finditer` scan (structural recursion on
the fuel, so that concrete runs reduce in the kernel). -/
def findIterAux (p : List RTok) : Nat → List Char → List (List (List Char))
  | 0, _ => []
  | fuel + 1, s =>
    match searchSplit p s with
    | none => []
    | some (_, caps, rest) =>
      if rest.length < s.length then
        caps :: findIterAux p fuel rest
      else
        caps ::
          (match s with
           | [] => []
           | _ :: tail => findIterAux p fuel tail)

/-- Embedding of `re.finditer`: leftmost non-overlapping matches, scanning left to right;
returns the capture lists.  Each step strictly shortens the subject, so
`s.length + 1` units of fuel always run the scan to completion.  (On an
empty match Python advances one position; our patterns start with a
non-empty literal, so that branch is vacuous.) -/
def findIterGo (p : List RTok) (s : List Char) : List (List (List Char)) :=
  findIterAux p (s.length + 1) s

/-- Embedding of `re.findall` for a single-group pattern: the list of group-1 captures. -/
def findall1 (p : List RTok) (s : List Char) : List (List Char) :=
  (findIterGo p s).filterMap (fun caps => caps.head?)

/-- Literal characters of a string. -/
def strL (s : String) : List Char := s.data

/-- Python `int` on a string of ASCII digits. -/
def natOfDigits (l : List Char) : Nat :=
  l.foldl (fun a c => 10 * a + (c.toNat - 48)) 0

/-- The pattern `<Page[^>]*WIDTH="(\d+)"[^>]*HEIGHT="(\d+)"`. -/
def pagePattern : List RTok :=
  [.lit (strL "<Page"), .star .notGt, .lit (strL "WIDTH=\""), .capPlus .digit,
   .lit (strL "\""), .star .notGt, .lit (strL "HEIGHT=\""), .capPlus .digit,
   .lit (strL "\"")]

/-- The pattern
`<TextLine[^>]*ID="([^"]*)"[^>]*HPOS="(\d+)"[^>]*VPOS="(\d+)"[^>]*HEIGHT="(\d+)"[^>]*WIDTH="(\d+)"[^>]*>([\s\S]*?)</TextLine>`. -/
def textLinePattern : List RTok :=
  [.lit (strL "<TextLine"), .star .notGt, .lit (strL "ID=\""), .capStar .notQuote,
   .lit (strL "\""), .star .notGt, .lit (strL "HPOS=\""), .capPlus .digit,
   .lit (strL "\""), .star .notGt, .lit (strL "VPOS=\""), .capPlus .digit,
   .lit (strL "\""), .star .notGt, .lit (strL "HEIGHT=\""), .capPlus .digit,
   .lit (strL "\""), .star .notGt, .lit (strL "WIDTH=\""), .capPlus .digit,
   .lit (strL "\""), .star .notGt, .lit (strL ">"), .capLazy,
   .lit (strL "</TextLine>")]

/-- The pattern `<Polygon[^>]*POINTS="([^"]*)"`. -/
def polygonPattern : List RTok :=
  [.lit (strL "<Polygon"), .star .notGt, .lit (strL "POINTS=\""),
   .capStar .notQuote, .lit (strL "\"")]

/-- The pattern `<String[^>]*CONTENT="([^"]*)"`. -/
def stringPattern : List RTok :=
  [.lit (strL "<String"), .star .notGt, .lit (strL "CONTENT=\""),
   .capStar .notQuote, .lit (strL "\"")]

/-- The `TextLine` record of `src/models.py` / `server.py`: polygon kept as the raw
`POINTS` attribute string. -/
structure TextLine where
  id : String
  polygon : String
  transcription : String
  hpos : Nat
  vpos : Nat
  width : Nat
  height : Nat
  deriving DecidableEq, Repr

/-- The `AltoData` record of `src/models.py` / `server.py`. -/
structure AltoData where
  text_lines : List TextLine
  page_width : Nat
  page_height : Nat
  full_text : String
  deriving DecidableEq, Repr

/-- Page-dimension extraction of `parse_alto_xml`: the `re.search` on
`pagePattern`, with defaults `6192 × 5432` when it fails. -/
def pageDims (s : List Char) : Nat × Nat :=
  match searchSplit pagePattern s with
  | some (_, w :: h :: _, _) => (natOfDigits w, natOfDigits h)
  | _ => (6192, 5432)

/-- Polygon extraction of the loop body: the `POINTS` capture of the first
`Polygon` search in the line body, else `""`. -/
def polyOf (body : List Char) : String :=
  match searchSplit polygonPattern body with
  | some (_, pts :: _, _) => ⟨pts⟩
  | _ => ""

/-- Word extraction of the loop body: all `CONTENT` captures of `String`
elements, in order. -/
def wordsOf (body : List Char) : List String :=
  (findall1 stringPattern body).map (fun l => (⟨l⟩ : String))

/-- Transcription of the loop body: the single-space join of the words. -/
def trOf (body : List Char) : String :=
  String.intercalate " " (wordsOf body)

/-- Per-match body of the `for match in raw_matches` loop: group 1 is the
id, groups 2-5 are HPOS, VPOS, HEIGHT, WIDTH, group 6 the element body;
the polygon is the `POINTS` capture of the first `Polygon` search (else
`""`), the transcription the space-join of all `String` `CONTENT` captures;
the line is kept only when both are non-empty. -/
def lineOfCaps (caps : List (List Char)) : Option (TextLine × String) :=
  match caps with
  | [i, h, v, ht, w, body] =>
    if polyOf body ≠ "" ∧ trOf body ≠ "" then
      some (⟨⟨i⟩, polyOf body, trOf body, natOfDigits h, natOfDigits v,
             natOfDigits w, natOfDigits ht⟩, trOf body)
    else
      none
  | _ => none

/-- One iteration of the extraction loop: append the retained line and its
transcription to the two accumulator lists (`text_lines.append` /
`transcription_lines.append`), or keep the accumulators unchanged. -/
def linesStep (acc : List TextLine × List String) (caps : List (List Char)) :
    List TextLine × List String :=
  match lineOfCaps caps with
  | some (tl, tr) => (acc.1 ++ [tl], acc.2 ++ [tr])
  | none => acc

/-- Embedding of `parse_alto_xml` of `src/alto.py` / `server.py`: page dimensions via
`pagePattern` (defaults on failure), one pass over the `finditer` matches of
`textLinePattern` appending retained lines and their transcriptions, and
`full_text` the newline-join of the collected transcriptions. -/
def parse_alto_xml (xml : String) : AltoData :=
  let s := xml.data
  let pd := pageDims s
  let r := (findIterGo textLinePattern s).foldl linesStep ([], [])
  ⟨r.1, pd.1, pd.2, String.intercalate "\n" r.2⟩

/-! ### Match-shape predicates

`TokMatch t p cp` says the characters `p` are a legitimate way for token `t`
to be consumed, producing the capture list `cp`; `ToksMatch` concatenates.
These describe exactly which strings a pattern can match, independent of the
backtracking search order. -/

/-- How one token can consume characters and produce captures. -/
inductive TokMatch : RTok → List Char → List (List Char) → Prop
  | lit (l : List Char) : TokMatch (.lit l) l []
  | star {c p} (h : p.all (cmem c) = true) : TokMatch (.star c) p []
  | capStar {c p} (h : p.all (cmem c) = true) : TokMatch (.capStar c) p [p]
  | capPlus {c p} (h : p.all (cmem c) = true) (hne : p ≠ []) : TokMatch (.capPlus c) p [p]
  | capLazy (p : List Char) : TokMatch .capLazy p [p]

/-- How a token sequence consumes a character sequence. -/
inductive ToksMatch : List RTok → List Char → List (List Char) → Prop
  | nil : ToksMatch [] [] []
  | cons {t ts p cp q cq} : TokMatch t p cp → ToksMatch ts q cq →
      ToksMatch (t :: ts) (p ++ q) (cp ++ cq)

/-- Patterns opening with a non-empty literal (all four patterns of
`parse_alto_xml` do); such a pattern never matches the empty string. -/
def LeadLit (p : List RTok) : Prop :=
  ∃ l ts, p = RTok.lit l :: ts ∧ l ≠ []

/-- The results of `finditer` decompose the subject into successive
non-overlapping matched segments, left to right. -/
def ChainDecomp (p : List RTok) : List Char → List (List (List Char)) → Prop
  | _, [] => True
  | s, caps :: more =>
    ∃ pre consumed tail, s = pre ++ (consumed ++ tail) ∧ ToksMatch p consumed caps ∧
      ChainDecomp p tail more

/-- All characters distinct from `>` (inside one opening tag). -/
abbrev NoGt (l : List Char) : Prop := l.all (cmem .notGt) = true

/-- All characters distinct from `"`. -/
abbrev NoQ (l : List Char) : Prop := l.all (cmem .notQuote) = true

/-- A non-empty ASCII digit string. -/
abbrev DigitsNE (l : List Char) : Prop := l.all (cmem .digit) = true ∧ l ≠ []

/-- The six captured parts of a `textLinePattern` match. -/
structure TLParts where
  idS : List Char
  hS : List Char
  vS : List Char
  htS : List Char
  wS : List Char
  body : List Char

/-- The characters consumed by a `textLinePattern` match with captures `pt`
and attribute-gap fillers `a`-`f`: the opening tag lists `ID`, `HPOS`,
`VPOS`, `HEIGHT`, `WIDTH` in exactly this relative order, with no `>`
in between, then the body up to the closing tag. -/
def tlConsumed (a b c d e f : List Char) (pt : TLParts) : List Char :=
  strL "<TextLine" ++ a ++ strL "ID=\"" ++ pt.idS ++ strL "\"" ++ b ++
  strL "HPOS=\"" ++ pt.hS ++ strL "\"" ++ c ++
  strL "VPOS=\"" ++ pt.vS ++ strL "\"" ++ d ++
  strL "HEIGHT=\"" ++ pt.htS ++ strL "\"" ++ e ++
  strL "WIDTH=\"" ++ pt.wS ++ strL "\"" ++ f ++
  strL ">" ++ pt.body ++ strL "</TextLine>"

/-- Statement that `xml` contains a `TextLine` element of the only shape the extraction
pattern accepts: attributes `ID`, `HPOS`, `VPOS`, `HEIGHT`, `WIDTH` in that
relative order inside one opening tag. -/
def TLOcc (xml : List Char) (pt : TLParts) : Prop :=
  ∃ pre a b c d e f post,
    xml = pre ++ tlConsumed a b c d e f pt ++ post ∧
    NoGt a ∧ NoGt b ∧ NoGt c ∧ NoGt d ∧ NoGt e ∧ NoGt f ∧
    NoQ pt.idS ∧ DigitsNE pt.hS ∧ DigitsNE pt.vS ∧ DigitsNE pt.htS ∧ DigitsNE pt.wS

/-- Statement that `xml` contains a `Page` tag declaring `WIDTH="…"` and then `HEIGHT="…"`
(in that order, inside one tag), with the captured digit strings. -/
def PageOcc (xml wS hS : List Char) : Prop :=
  ∃ pre a b post,
    xml = pre ++ (strL "<Page" ++ a ++ strL "WIDTH=\"" ++ wS ++ strL "\"" ++ b ++
      strL "HEIGHT=\"" ++ hS ++ strL "\"") ++ post ∧
    NoGt a ∧ NoGt b ∧ DigitsNE wS ∧ DigitsNE hS

/-- The word contents `ws` come from successive `String` elements of `s`,
left to right (source order). -/
def StrChainFrom : List Char → List (List Char) → Prop
  | _, [] => True
  | s, w :: ws =>
    ∃ pre a rest,
      s = pre ++ (strL "<String" ++ a ++ strL "CONTENT=\"" ++ w ++ strL "\"") ++ rest ∧
      NoGt a ∧ NoQ w ∧ StrChainFrom rest ws

end AltoSpec

namespace ParserModel

/-!
Modelled from the spec: the repository's test suite (`tests/test_parser.py`)
imports `src.parser` — `parse_alto_xml` with per-line confidence,
`parse_page_xml` and `detect_and_parse` — but no `src/parser.py` is present
in the sources.  The definitions in this namespace model that missing module
from the specification's words (§3, §4.1-§4.4): attribute extraction that is
order-insensitive (schema-level, per §9), word/text join with single spaces,
line confidence as the arithmetic mean of declared per-word scores (absent
when none are declared), PAGE XML bounding boxes derived from the polygon
via the geometry utility, and a pure dispatcher over schema signatures.
Confidence is modelled with exact rationals. -/

open AltoSpec

/-- Modelled from the spec (§4.1): `boundingBoxFromPolygon` — axis-aligned
bounding box `(hpos, vpos, width, height)` of a non-empty point list, with
`width = maxX - minX`, `height = maxY - minY`; empty input is the
`InvalidGeometry` condition, returned as `none`. -/
def boundingBoxFromPolygon (pts : List (Int × Int)) : Option (Int × Int × Int × Int) :=
  match pts with
  | [] => none
  | q :: rest =>
    let minX := rest.foldl (fun a p => min a p.1) q.1
    let minY := rest.foldl (fun a p => min a p.2) q.2
    let maxX := rest.foldl (fun a p => max a p.1) q.1
    let maxY := rest.foldl (fun a p => max a p.2) q.2
    some (minX, minY, maxX - minX, maxY - minY)

/-- Split a character list on a separator character. -/
def splitOnChar (c : Char) (l : List Char) : List (List Char) :=
  match l with
  | [] => [[]]
  | x :: xs =>
    match splitOnChar c xs with
    | [] => [[]]
    | g :: gs => if x == c then [] :: g :: gs else (x :: g) :: gs

/-- A (possibly negative) decimal integer literal. -/
def intOfChars (l : List Char) : Option Int :=
  match l with
  | '-' :: rest =>
    if rest ≠ [] ∧ rest.all Char.isDigit then some (-(natOfDigits rest : Int)) else none
  | _ =>
    if l ≠ [] ∧ l.all Char.isDigit then some ((natOfDigits l : Int)) else none

/-- Modelled from the spec (§3): one `"x,y"` token of a polygon point list. -/
def parsePoint (tok : List Char) : Option (Int × Int) :=
  match splitOnChar ',' tok with
  | [x, y] =>
    match intOfChars x, intOfChars y with
    | some a, some b => some (a, b)
    | _, _ => none
  | _ => none

/-- Modelled from the spec (§3, §4.3): a polygon attribute value as the
ordered list of its `"x,y"` integer pairs (space-separated). -/
def polygonPoints (s : String) : List (Int × Int) :=
  (splitOnChar ' ' s.data).filterMap parsePoint

/-- Decimal-fraction literal (e.g. `0.98`) as an exact rational. -/
def ratOfDecimal (l : List Char) : Option ℚ :=
  match splitOnChar '.' l with
  | [w] => if w ≠ [] ∧ w.all Char.isDigit then some (natOfDigits w) else none
  | [w, f] =>
    if w.all Char.isDigit ∧ f ≠ [] ∧ f.all Char.isDigit then
      some ((natOfDigits w : ℚ) + (natOfDigits f : ℚ) / ((10 : ℚ) ^ f.length))
    else none
  | _ => none

/-- Value of the attribute `name="…"` inside a tag's attribute region,
independent of attribute order (schema-level extraction, spec §9). -/
def attrVal (name : String) (attrs : List Char) : Option (List Char) :=
  match searchSplit [.lit (strL (name ++ "=\"")), .capStar .notQuote, .lit (strL "\"")] attrs with
  | some (_, v :: _, _) => some v
  | _ => none

/-- A numeric attribute, as a natural number. -/
def natAttr (name : String) (attrs : List Char) : Option Nat :=
  match attrVal name attrs with
  | some v => if v ≠ [] ∧ v.all Char.isDigit then some (natOfDigits v) else none
  | none => none

/-- Modelled from the spec (§3): the unified `TextLine` with its optional
line confidence and the polygon as an ordered point list. -/
structure PTextLine where
  id : String
  polygon : List (Int × Int)
  transcription : String
  hpos : Int
  vpos : Int
  width : Int
  height : Int
  confidence : Option ℚ
  deriving DecidableEq, Repr

/-- Modelled from the spec (§3): the normalized per-page parse result. -/
structure PageResult where
  text_lines : List PTextLine
  page_width : Nat
  page_height : Nat
  full_text : String
  deriving DecidableEq, Repr

/-- A line element `<TextLine …>…</TextLine>`: attribute region and body. -/
def modelLinePattern : List RTok :=
  [.lit (strL "<TextLine"), .capStar .notGt, .lit (strL ">"), .capLazy,
   .lit (strL "</TextLine>")]

/-- Statement that `xml` contains the line element
`<TextLine attrs>body</TextLine>` (attribute region free of `>`): the
occurrence a parsed line was read from. -/
def MLOcc (xml attrs body : List Char) : Prop :=
  ∃ pre post,
    xml = pre ++ (strL "<TextLine" ++ attrs ++ strL ">" ++ body ++
      strL "</TextLine>") ++ post ∧
    NoGt attrs

/-- The attribute region of a word element `<String …`. -/
def wordTagPattern : List RTok :=
  [.lit (strL "<String"), .capStar .notGt]

/-- Modelled from the spec (§4.2): the line's word elements in order, each
with its text content and optionally its declared `WC` confidence score. -/
def lineWords (body : List Char) : List (String × Option ℚ) :=
  (findIterGo wordTagPattern body).filterMap
    (fun caps =>
      match caps with
      | [attrs] =>
        (attrVal "CONTENT" attrs).map
          (fun c => ((⟨c⟩ : String), (attrVal "WC" attrs).bind ratOfDecimal))
      | _ => none)

/-- The per-word confidence scores actually declared on a line's words. -/
def declaredConfs (ws : List (String × Option ℚ)) : List ℚ :=
  ws.filterMap Prod.snd

/-- Modelled from the spec (§4.2): the arithmetic mean of a score list. -/
def arithMean (l : List ℚ) : ℚ := l.sum / l.length

/-- Modelled from the spec (§4.2): line confidence — the mean of the
declared per-word scores, absent (`none`, not zero) when no element of the
line declares a score. -/
def lineConfidence (ws : List (String × Option ℚ)) : Option ℚ :=
  let wcs := declaredConfs ws
  if wcs = [] then none else some ((wcs.foldl (· + ·) 0) / wcs.length)

/-- The `POINTS` polygon attribute of the line body's `Polygon` element. -/
def altoPolyOf (body : List Char) : List (Int × Int) :=
  match searchSplit polygonPattern body with
  | some (_, pts :: _, _) => polygonPoints ⟨pts⟩
  | _ => []

/-- Modelled from the spec (§4.2): one ALTO line — identifier and explicit
bounding attributes from the opening tag (order-insensitive), polygon from
the `Polygon` element, transcription the single-space join of the word
contents, confidence aggregated from declared `WC` scores; retained only
with non-empty polygon and transcription. -/
def processAltoLine (attrs body : List Char) : Option PTextLine :=
  match attrVal "ID" attrs, natAttr "HPOS" attrs, natAttr "VPOS" attrs,
        natAttr "WIDTH" attrs, natAttr "HEIGHT" attrs with
  | some i, some hp, some vp, some w, some ht =>
    if altoPolyOf body ≠ [] ∧ String.intercalate " " ((lineWords body).map Prod.fst) ≠ "" then
      some ⟨⟨i⟩, altoPolyOf body, String.intercalate " " ((lineWords body).map Prod.fst),
            hp, vp, w, ht, lineConfidence (lineWords body)⟩
    else none
  | _, _, _, _, _ => none

/-- Page dimensions: declared width/height attributes of the page element,
with the documented fallback `6192 × 5432` (spec §4.2). -/
def modelPageDims (wName hName : String) (s : List Char) : Nat × Nat :=
  match searchSplit [.lit (strL "<Page"), .capStar .notGt, .lit (strL ">")] s with
  | some (_, attrs :: _, _) =>
    match natAttr wName attrs, natAttr hName attrs with
    | some w, some h => (w, h)
    | _, _ => (6192, 5432)
  | _ => (6192, 5432)

/-- Modelled from the spec (§4.2): the missing `src/parser.py`
`parse_alto_xml` — ALTO markup to the unified page result. -/
def parse_alto_xml (xml : String) : PageResult :=
  let lines :=
    (findIterGo modelLinePattern xml.data).filterMap
      (fun caps =>
        match caps with
        | [attrs, body] => processAltoLine attrs body
        | _ => none)
  let pd := modelPageDims "WIDTH" "HEIGHT" xml.data
  ⟨lines, pd.1, pd.2, String.intercalate "\n" (lines.map PTextLine.transcription)⟩

/-- The `points` attribute value of the body's `Coords` element. -/
def coordsOf (body : List Char) : List (Int × Int) :=
  match searchSplit [.lit (strL "<Coords"), .star .notGt, .lit (strL "points=\""),
                     .capStar .notQuote, .lit (strL "\"")] body with
  | some (_, pts :: _, _) => polygonPoints ⟨pts⟩
  | _ => []

/-- The text payload of the body's `Unicode` element. -/
def unicodeOf (body : List Char) : Option String :=
  match searchSplit [.lit (strL "<Unicode>"), .capLazy, .lit (strL "</Unicode>")] body with
  | some (_, t :: _, _) => some ⟨t⟩
  | _ => none

/-- The `conf` score declared on the body's `TextEquiv` element. -/
def confOf (body : List Char) : Option ℚ :=
  match searchSplit [.lit (strL "<TextEquiv"), .star .notGt, .lit (strL "conf=\""),
                     .capStar .notQuote, .lit (strL "\"")] body with
  | some (_, v :: _, _) => ratOfDecimal v
  | _ => none

/-- Modelled from the spec (§4.3): one PAGE XML line — no explicit bounding
attributes; the box is derived exclusively from the polygon via the
geometry utility, a degenerate polygon drops the line. -/
def processPageLine (attrs body : List Char) : Option PTextLine :=
  match attrVal "id" attrs, unicodeOf body with
  | some i, some txt =>
    let pts := coordsOf body
    match boundingBoxFromPolygon pts with
    | some (hp, vp, w, ht) =>
      if pts ≠ [] ∧ txt ≠ "" then
        some ⟨⟨i⟩, pts, txt, hp, vp, w, ht, confOf body⟩
      else none
    | none => none
  | _, _ => none

/-- Modelled from the spec (§4.3): the missing `src/parser.py`
`parse_page_xml` — PAGE XML markup to the unified page result. -/
def parse_page_xml (xml : String) : PageResult :=
  let lines :=
    (findIterGo modelLinePattern xml.data).filterMap
      (fun caps =>
        match caps with
        | [attrs, body] => processPageLine attrs body
        | _ => none)
  let pd := modelPageDims "imageWidth" "imageHeight" xml.data
  ⟨lines, pd.1, pd.2, String.intercalate "\n" (lines.map PTextLine.transcription)⟩

/-- Substring test (schema signature detection). -/
def hasSub (pat : List Char) : List Char → Bool
  | [] => pat.isEmpty
  | s@(_ :: tail) => pat.isPrefixOf s || hasSub pat tail

/-- The ALTO schema signature. -/
def isAltoDoc (s : String) : Bool := hasSub (strL "<alto") s.data

/-- The PAGE XML (PRImA `PcGts`) schema signature. -/
def isPageDoc (s : String) : Bool := hasSub (strL "<PcGts") s.data

/-- Modelled from the spec (§4.4, §7): `UnsupportedFormat` — the detector
cannot classify the input. -/
inductive DetectError where
  | unsupportedFormat
  deriving DecidableEq, Repr

/-- Modelled from the spec (§4.4): `detectAndParse` — pure dispatch on the
schema signature, `UnsupportedFormat` when neither is recognized. -/
def detect_and_parse (s : String) : Except DetectError PageResult :=
  if isAltoDoc s then .ok (parse_alto_xml s)
  else if isPageDoc s then .ok (parse_page_xml s)
  else .error .unsupportedFormat

end ParserModel

namespace AltoSpec

/-! ### Concrete inputs used by witnesses and counterexamples -/

/-- A well-formed ALTO fragment: one page, one line split into the word
elements `sedan` and `han`. -/
def wfInput : String :=
  "<Page WIDTH=\"100\" HEIGHT=\"200\"><TextLine ID=\"a\" HPOS=\"1\" VPOS=\"2\" HEIGHT=\"3\" WIDTH=\"4\"><Polygon POINTS=\"p\"/><String CONTENT=\"sedan\"/><String CONTENT=\"han\"/></TextLine></Page>"

/-- The single retained line of `wfInput`. -/
def wfLine : TextLine := ⟨"a", "p", "sedan han", 1, 2, 4, 3⟩

/-- An otherwise complete, well-formed `TextLine` element whose `WIDTH`
attribute precedes its `HEIGHT` attribute. -/
def swappedInput : String :=
  "<TextLine ID=\"a\" HPOS=\"1\" VPOS=\"2\" WIDTH=\"4\" HEIGHT=\"3\"><Polygon POINTS=\"p\"/><String CONTENT=\"x\"/></TextLine>"

/-- Markup truncated inside an opening tag: no line structure extractable. -/
def malformedInput : String := "<TextLine ID=\"x\" HPOS="

/-- A `Page` element declaring `HEIGHT` before `WIDTH`. -/
def swappedPageInput : String := "<Page HEIGHT=\"100\" WIDTH=\"200\"></Page>"

/-- A retained line whose explicit bounding attributes contradict its
polygon (attributes at the origin, polygon near (100,100)-(200,150)). -/
def mismatchInput : String :=
  "<TextLine ID=\"m\" HPOS=\"0\" VPOS=\"0\" HEIGHT=\"5\" WIDTH=\"5\"><Polygon POINTS=\"100,100 200,150\"/><String CONTENT=\"w\"/></TextLine>"

/-- The single retained line of `mismatchInput`. -/
def mismatchLine : TextLine := ⟨"m", "100,100 200,150", "w", 0, 0, 5, 5⟩

end AltoSpec

namespace ParserModel

/-- An ALTO document for the modelled parser: one line, two words carrying
`WC` scores `0.5` and `1.0`. -/
def altoModelInput : String :=
  "<alto><Page WIDTH=\"100\" HEIGHT=\"200\"><TextLine ID=\"l0\" HPOS=\"5\" VPOS=\"6\" WIDTH=\"7\" HEIGHT=\"8\"><Polygon POINTS=\"1,2 3,4\"/><String CONTENT=\"sedan\" WC=\"0.5\"/><String CONTENT=\"han\" WC=\"1.0\"/></TextLine></Page></alto>"

/-- The single line of `altoModelInput` under the modelled parser. -/
def altoModelLine : PTextLine := ⟨"l0", [(1, 2), (3, 4)], "sedan han", 5, 6, 7, 8, some (3 / 4)⟩

/-- An ALTO document whose words declare no `WC` scores. -/
def altoNoConfInput : String :=
  "<alto><TextLine ID=\"l0\" HPOS=\"5\" VPOS=\"6\" WIDTH=\"7\" HEIGHT=\"8\"><Polygon POINTS=\"1,2 3,4\"/><String CONTENT=\"sedan\"/></TextLine></alto>"

/-- The single line of `altoNoConfInput`: its confidence is absent. -/
def altoNoConfLine : PTextLine := ⟨"l0", [(1, 2), (3, 4)], "sedan", 5, 6, 7, 8, none⟩

/-- A PAGE XML document for the modelled parser. -/
def pageModelInput : String :=
  "<PcGts><Page imageWidth=\"100\" imageHeight=\"200\"><TextLine id=\"l0\"><Coords points=\"355,203 400,250\"/><TextEquiv conf=\"0.25\"><Unicode>Mommouth den</Unicode></TextEquiv></TextLine></Page></PcGts>"

/-- Markup carrying neither schema signature. -/
def plainInput : String := "hello world"

end ParserModel

namespace AltoSpec

/-! ### Generic lemmas about the backtracking matcher -/

theorem firstSome_eq_some {l : List α} {f : α → Option β} {b : β}
    (h : firstSome l f = some b) : ∃ x ∈ l, f x = some b := by
  induction l with
  | nil => simp [firstSome] at h
  | cons x xs ih =>
    rw [firstSome] at h
    cases hx : f x with
    | some b' =>
      rw [hx] at h
      exact ⟨x, List.mem_cons_self x xs, hx.trans h⟩
    | none =>
      rw [hx] at h
      obtain ⟨y, hy, hfy⟩ := ih h
      exact ⟨y, List.mem_cons_of_mem x hy, hfy⟩

theorem firstSome_isSome_of {l : List α} {f : α → Option β} {x : α}
    (hx : x ∈ l) (hfx : (f x).isSome) : (firstSome l f).isSome := by
  induction l with
  | nil => cases hx
  | cons y ys ih =>
    rw [firstSome]
    cases hy : f y with
    | some b => simp
    | none =>
      rcases List.mem_cons.mp hx with rfl | hx'
      · rw [hy] at hfx; simp at hfx
      · exact ih hx'

theorem takeWhile_append_of_all {f : α → Bool} {p : List α} (h : p.all f = true) (q : List α) :
    (p ++ q).takeWhile f = p ++ q.takeWhile f := by
  induction p with
  | nil => simp
  | cons a l ih =>
    simp only [List.all_cons, Bool.and_eq_true] at h
    simp [List.takeWhile_cons, h.1, ih h.2]

theorem dropWhile_append_of_all {f : α → Bool} {p : List α} (h : p.all f = true) (q : List α) :
    (p ++ q).dropWhile f = q.dropWhile f := by
  induction p with
  | nil => simp
  | cons a l ih =>
    simp only [List.all_cons, Bool.and_eq_true] at h
    simp [List.dropWhile_cons, h.1, ih h.2]

theorem splitsGreedy_spec {c : CClass} {s : List Char} {pr : List Char × List Char}
    (h : pr ∈ splitsGreedy c s) : pr.1 ++ pr.2 = s ∧ pr.1.all (cmem c) = true := by
  simp only [splitsGreedy, List.mem_map, List.mem_reverse, List.mem_range] at h
  obtain ⟨k, _, rfl⟩ := h
  refine ⟨?_, ?_⟩
  · rw [← List.append_assoc, List.take_append_drop, List.takeWhile_append_dropWhile]
  · rw [List.all_eq_true]
    intro x hx
    exact List.mem_takeWhile_imp (List.mem_of_mem_take hx)

theorem mem_splitsGreedy {c : CClass} {p : List Char} (q : List Char)
    (hall : p.all (cmem c) = true) : (p, q) ∈ splitsGreedy c (p ++ q) := by
  simp only [splitsGreedy, List.mem_map, List.mem_reverse, List.mem_range]
  refine ⟨p.length, ?_, ?_⟩
  · rw [takeWhile_append_of_all hall]
    have : p.length ≤ (p ++ (q.takeWhile (cmem c))).length := by
      simp [List.length_append]
    omega
  · rw [takeWhile_append_of_all hall, dropWhile_append_of_all hall,
        List.take_left, List.drop_left, List.takeWhile_append_dropWhile]

theorem splitsLazy_spec {s : List Char} {pr : List Char × List Char}
    (h : pr ∈ splitsLazy s) : pr.1 ++ pr.2 = s := by
  simp only [splitsLazy, List.mem_map, List.mem_range] at h
  obtain ⟨k, _, rfl⟩ := h
  exact List.take_append_drop k s

theorem mem_splitsLazy (p q : List Char) : (p, q) ∈ splitsLazy (p ++ q) := by
  simp only [splitsLazy, List.mem_map, List.mem_range]
  refine ⟨p.length, ?_, ?_⟩
  · simp [List.length_append]
    omega
  · rw [List.take_left, List.drop_left]

/-- Soundness of the matcher: a successful match decomposes the subject into
a consumed part of the pattern's shape and the returned suffix. -/
theorem matchToks_sound : ∀ {ts : List RTok} {s caps rest},
    matchToks ts s = some (caps, rest) →
    ∃ consumed, s = consumed ++ rest ∧ ToksMatch ts consumed caps := by
  intro ts
  induction ts with
  | nil =>
    intro s caps rest h
    simp only [matchToks, Option.some.injEq, Prod.mk.injEq] at h
    obtain ⟨rfl, rfl⟩ := h
    exact ⟨[], by simp, ToksMatch.nil⟩
  | cons t ts ih =>
    intro s caps rest h
    cases t with
    | lit l =>
      rw [matchToks] at h
      by_cases hp : l.isPrefixOf s
      · rw [if_pos hp] at h
        obtain ⟨u, rfl⟩ := List.isPrefixOf_iff_prefix.mp hp
        rw [List.drop_left] at h
        obtain ⟨consumed, rfl, hm⟩ := ih h
        exact ⟨l ++ consumed, by simp, ToksMatch.cons (TokMatch.lit l) hm⟩
      · rw [if_neg hp] at h
        exact absurd h (by simp)
    | star c =>
      rw [matchToks] at h
      obtain ⟨pr, hpr, hf⟩ := firstSome_eq_some h
      obtain ⟨hsplit, hall⟩ := splitsGreedy_spec hpr
      obtain ⟨consumed, hc, hm⟩ := ih hf
      refine ⟨pr.1 ++ consumed, ?_, ToksMatch.cons (TokMatch.star hall) hm⟩
      rw [← hsplit, hc, List.append_assoc]
    | capStar c =>
      rw [matchToks] at h
      obtain ⟨pr, hpr, hf⟩ := firstSome_eq_some h
      obtain ⟨hsplit, hall⟩ := splitsGreedy_spec hpr
      cases hmt : matchToks ts pr.2 with
      | none => rw [hmt] at hf; simp at hf
      | some cr =>
        rw [hmt] at hf
        simp only [Option.map_some', Option.some.injEq, Prod.mk.injEq] at hf
        obtain ⟨hcaps, hrest⟩ := hf
        obtain ⟨consumed, hc, hm⟩ := ih hmt
        subst hcaps hrest
        refine ⟨pr.1 ++ consumed, ?_, ToksMatch.cons (TokMatch.capStar hall) hm⟩
        rw [← hsplit, hc, List.append_assoc]
    | capPlus c =>
      rw [matchToks] at h
      obtain ⟨pr, hpr, hf⟩ := firstSome_eq_some h
      obtain ⟨hsplit, hall⟩ := splitsGreedy_spec hpr
      cases hie : pr.1.isEmpty with
      | true => rw [hie] at hf; simp at hf
      | false =>
        rw [hie] at hf
        simp only [Bool.false_eq_true, if_false] at hf
        cases hmt : matchToks ts pr.2 with
        | none => rw [hmt] at hf; simp at hf
        | some cr =>
          rw [hmt] at hf
          simp only [Option.map_some', Option.some.injEq, Prod.mk.injEq] at hf
          obtain ⟨hcaps, hrest⟩ := hf
          obtain ⟨consumed, hc, hm⟩ := ih hmt
          subst hcaps hrest
          have hne : pr.1 ≠ [] := by
            intro hnil
            rw [hnil] at hie
            simp at hie
          refine ⟨pr.1 ++ consumed, ?_, ToksMatch.cons (TokMatch.capPlus hall hne) hm⟩
          rw [← hsplit, hc, List.append_assoc]
    | capLazy =>
      rw [matchToks] at h
      obtain ⟨pr, hpr, hf⟩ := firstSome_eq_some h
      have hsplit := splitsLazy_spec hpr
      cases hmt : matchToks ts pr.2 with
      | none => rw [hmt] at hf; simp at hf
      | some cr =>
        rw [hmt] at hf
        simp only [Option.map_some', Option.some.injEq, Prod.mk.injEq] at hf
        obtain ⟨hcaps, hrest⟩ := hf
        obtain ⟨consumed, hc, hm⟩ := ih hmt
        subst hcaps hrest
        refine ⟨pr.1 ++ consumed, ?_, ToksMatch.cons (TokMatch.capLazy pr.1) hm⟩
        rw [← hsplit, hc, List.append_assoc]

/-- Completeness of the matcher: whenever a decomposition of the pattern's
shape exists, the backtracking search succeeds (possibly with a different,
higher-priority decomposition). -/
theorem matchToks_isSome {ts : List RTok} {consumed caps}
    (h : ToksMatch ts consumed caps) :
    ∀ rest, (matchToks ts (consumed ++ rest)).isSome := by
  induction h with
  | nil => intro rest; simp [matchToks]
  | @cons t ts p cp q cq ht hts ih =>
    intro rest
    cases ht with
    | lit =>
      rw [List.append_assoc, matchToks]
      have hpf : p.isPrefixOf (p ++ (q ++ rest)) :=
        List.isPrefixOf_iff_prefix.mpr (List.prefix_append p (q ++ rest))
      rw [if_pos hpf, List.drop_left]
      exact ih rest
    | @star c p hall =>
      rw [List.append_assoc, matchToks]
      exact firstSome_isSome_of (mem_splitsGreedy (q ++ rest) hall) (ih rest)
    | @capStar c p hall =>
      rw [List.append_assoc, matchToks]
      apply firstSome_isSome_of (mem_splitsGreedy (q ++ rest) hall)
      obtain ⟨cr, hcr⟩ := Option.isSome_iff_exists.mp (ih rest)
      simp [hcr]
    | @capPlus c p hall hne =>
      rw [List.append_assoc, matchToks]
      apply firstSome_isSome_of (mem_splitsGreedy (q ++ rest) hall)
      have hie : p.isEmpty = false := by
        cases p with
        | nil => exact absurd rfl hne
        | cons a l => rfl
      obtain ⟨cr, hcr⟩ := Option.isSome_iff_exists.mp (ih rest)
      simp [hie, hcr]
    | capLazy =>
      rw [List.append_assoc, matchToks]
      apply firstSome_isSome_of (mem_splitsLazy p (q ++ rest))
      obtain ⟨cr, hcr⟩ := Option.isSome_iff_exists.mp (ih rest)
      simp [hcr]

/-- Soundness of `re.search`: a hit splits the subject into the skipped
prefix, a consumed segment of the pattern's shape, and the suffix. -/
theorem searchSplit_sound {p : List RTok} : ∀ {s pre caps rest},
    searchSplit p s = some (pre, caps, rest) →
    ∃ consumed, s = pre ++ (consumed ++ rest) ∧ ToksMatch p consumed caps := by
  intro s
  induction s with
  | nil =>
    intro pre caps rest h
    rw [searchSplit] at h
    cases hmt : matchToks p [] with
    | none => rw [hmt] at h; simp at h
    | some cr =>
      obtain ⟨caps', rest'⟩ := cr
      rw [hmt] at h
      simp only [Option.map_some', Option.some.injEq, Prod.mk.injEq] at h
      obtain ⟨hpre, hcaps, hrest⟩ := h
      obtain ⟨consumed, hc, hm⟩ := matchToks_sound hmt
      subst hpre hcaps hrest
      exact ⟨consumed, by simpa using hc, hm⟩
  | cons c cs ih =>
    intro pre caps rest h
    rw [searchSplit] at h
    cases hmt : matchToks p (c :: cs) with
    | some cr =>
      obtain ⟨caps', rest'⟩ := cr
      rw [hmt] at h
      simp only [Option.some.injEq, Prod.mk.injEq] at h
      obtain ⟨hpre, hcaps, hrest⟩ := h
      obtain ⟨consumed, hc, hm⟩ := matchToks_sound hmt
      subst hpre hcaps hrest
      exact ⟨consumed, by simpa using hc, hm⟩
    | none =>
      rw [hmt] at h
      cases hss : searchSplit p cs with
      | none => rw [hss] at h; simp at h
      | some r =>
        obtain ⟨pre', caps', rest'⟩ := r
        rw [hss] at h
        simp only [Option.map_some', Option.some.injEq, Prod.mk.injEq] at h
        obtain ⟨hpre, hcaps, hrest⟩ := h
        obtain ⟨consumed, hc, hm⟩ := ih hss
        subst hpre hcaps hrest
        exact ⟨consumed, by rw [hc]; simp, hm⟩

/-- Completeness of `re.search`: if the pattern matches at some position,
the search succeeds. -/
theorem searchSplit_isSome {p : List RTok} (pre : List Char) {s : List Char}
    (h : (matchToks p s).isSome) : (searchSplit p (pre ++ s)).isSome := by
  induction pre with
  | nil =>
    cases s with
    | nil =>
      rw [List.nil_append, searchSplit]
      simpa using h
    | cons c cs =>
      rw [List.nil_append, searchSplit]
      obtain ⟨cr, hcr⟩ := Option.isSome_iff_exists.mp h
      rw [hcr]
      simp
  | cons c pre ih =>
    rw [List.cons_append, searchSplit]
    cases hmt : matchToks p (c :: (pre ++ s)) with
    | some cr => simp
    | none => simpa using ih

/-- A pattern opening with a non-empty literal consumes at least one
character. -/
theorem ToksMatch_leadLit_ne {p : List RTok} {consumed caps} (hp : LeadLit p)
    (h : ToksMatch p consumed caps) : consumed ≠ [] := by
  obtain ⟨l, ts, rfl, hl⟩ := hp
  cases h with
  | @cons _ _ pc cp q cq ht hts =>
    cases ht
    intro hcon
    exact hl (List.append_eq_nil.mp hcon).1

/-- For such a pattern the suffix returned by `search` is strictly shorter
than the subject. -/
theorem searchSplit_rest_lt {p : List RTok} (hp : LeadLit p) {s pre caps rest}
    (h : searchSplit p s = some (pre, caps, rest)) : rest.length < s.length := by
  obtain ⟨consumed, hs, hm⟩ := searchSplit_sound h
  have hne := ToksMatch_leadLit_ne hp hm
  have hlen : consumed.length ≠ 0 := by simpa using hne
  rw [hs]
  simp only [List.length_append]
  omega

/-- Soundness of the `finditer` scan: the produced capture lists decompose
the subject into successive non-overlapping matches, left to right. -/
theorem findIterAux_sound {p : List RTok} (hp : LeadLit p) :
    ∀ fuel s, ChainDecomp p s (findIterAux p fuel s) := by
  intro fuel
  induction fuel with
  | zero => intro s; trivial
  | succ fuel ih =>
    intro s
    simp only [findIterAux]
    cases hss : searchSplit p s with
    | none => trivial
    | some r =>
      obtain ⟨pre, caps, rest⟩ := r
      have hlt := searchSplit_rest_lt hp hss
      simp only [if_pos hlt]
      obtain ⟨consumed, hs, hm⟩ := searchSplit_sound hss
      exact ⟨pre, consumed, rest, hs, hm, ih rest⟩

/-- Every member of a `finditer` result arises from a match somewhere in
the subject. -/
theorem ChainDecomp_mem {p : List RTok} : ∀ {capsList} {s : List Char}
    {caps : List (List Char)}, ChainDecomp p s capsList → caps ∈ capsList →
    ∃ pre consumed rest, s = pre ++ (consumed ++ rest) ∧ ToksMatch p consumed caps := by
  intro capsList
  induction capsList with
  | nil => intro s caps _ hmem; cases hmem
  | cons c more ih =>
    intro s caps hchain hmem
    obtain ⟨pre, consumed, tail, hs, hm, hrest⟩ := hchain
    rcases List.mem_cons.mp hmem with rfl | hmem'
    · exact ⟨pre, consumed, tail, hs, hm⟩
    · obtain ⟨pre', consumed', rest', htail, hm'⟩ := ih hrest hmem'
      refine ⟨pre ++ (consumed ++ pre'), consumed', rest', ?_, hm'⟩
      rw [hs, htail]
      simp [List.append_assoc]


/-! ### Inversion of the concrete patterns -/

theorem ToksMatch_nil_inv {s : List Char} {caps} (h : ToksMatch [] s caps) :
    s = [] ∧ caps = [] := by
  cases h
  exact ⟨rfl, rfl⟩

theorem ToksMatch_cons_inv {t : RTok} {ts s caps} (h : ToksMatch (t :: ts) s caps) :
    ∃ p cp q cq, s = p ++ q ∧ caps = cp ++ cq ∧ TokMatch t p cp ∧ ToksMatch ts q cq := by
  cases h with
  | cons ht hts => exact ⟨_, _, _, _, rfl, rfl, ht, hts⟩

theorem TokMatch_lit_inv {l p : List Char} {cp} (h : TokMatch (.lit l) p cp) :
    p = l ∧ cp = [] := by
  cases h
  exact ⟨rfl, rfl⟩

theorem TokMatch_star_inv {c : CClass} {p : List Char} {cp} (h : TokMatch (.star c) p cp) :
    p.all (cmem c) = true ∧ cp = [] := by
  cases h with
  | star hall => exact ⟨hall, rfl⟩

theorem TokMatch_capStar_inv {c : CClass} {p : List Char} {cp} (h : TokMatch (.capStar c) p cp) :
    p.all (cmem c) = true ∧ cp = [p] := by
  cases h with
  | capStar hall => exact ⟨hall, rfl⟩

theorem TokMatch_capPlus_inv {c : CClass} {p : List Char} {cp} (h : TokMatch (.capPlus c) p cp) :
    (p.all (cmem c) = true ∧ p ≠ []) ∧ cp = [p] := by
  cases h with
  | capPlus hall hne => exact ⟨⟨hall, hne⟩, rfl⟩

theorem TokMatch_capLazy_inv {p : List Char} {cp} (h : TokMatch .capLazy p cp) :
    cp = [p] := by
  cases h
  rfl

/-- Inversion of a `textLinePattern` match: the consumed text is exactly a
`TextLine` element whose opening tag lists `ID`, `HPOS`, `VPOS`, `HEIGHT`,
`WIDTH` in that relative order, and the captures are its six parts. -/
theorem ToksMatch_textLine {consumed : List Char} {caps}
    (h : ToksMatch textLinePattern consumed caps) :
    ∃ (pt : TLParts) (a b c d e f : List Char),
      consumed = tlConsumed a b c d e f pt ∧
      caps = [pt.idS, pt.hS, pt.vS, pt.htS, pt.wS, pt.body] ∧
      NoGt a ∧ NoGt b ∧ NoGt c ∧ NoGt d ∧ NoGt e ∧ NoGt f ∧
      NoQ pt.idS ∧ DigitsNE pt.hS ∧ DigitsNE pt.vS ∧ DigitsNE pt.htS ∧ DigitsNE pt.wS := by
  obtain ⟨p1, c1, q1, d1, hs1, hc1, t1, h⟩ := ToksMatch_cons_inv h
  obtain ⟨rfl, rfl⟩ := TokMatch_lit_inv t1
  obtain ⟨p2, c2, q2, d2, hs2, hc2, t2, h⟩ := ToksMatch_cons_inv h
  obtain ⟨ha, rfl⟩ := TokMatch_star_inv t2
  obtain ⟨p3, c3, q3, d3, hs3, hc3, t3, h⟩ := ToksMatch_cons_inv h
  obtain ⟨rfl, rfl⟩ := TokMatch_lit_inv t3
  obtain ⟨p4, c4, q4, d4, hs4, hc4, t4, h⟩ := ToksMatch_cons_inv h
  obtain ⟨hid, rfl⟩ := TokMatch_capStar_inv t4
  obtain ⟨p5, c5, q5, d5, hs5, hc5, t5, h⟩ := ToksMatch_cons_inv h
  obtain ⟨rfl, rfl⟩ := TokMatch_lit_inv t5
  obtain ⟨p6, c6, q6, d6, hs6, hc6, t6, h⟩ := ToksMatch_cons_inv h
  obtain ⟨hb, rfl⟩ := TokMatch_star_inv t6
  obtain ⟨p7, c7, q7, d7, hs7, hc7, t7, h⟩ := ToksMatch_cons_inv h
  obtain ⟨rfl, rfl⟩ := TokMatch_lit_inv t7
  obtain ⟨p8, c8, q8, d8, hs8, hc8, t8, h⟩ := ToksMatch_cons_inv h
  obtain ⟨hh, rfl⟩ := TokMatch_capPlus_inv t8
  obtain ⟨p9, c9, q9, d9, hs9, hc9, t9, h⟩ := ToksMatch_cons_inv h
  obtain ⟨rfl, rfl⟩ := TokMatch_lit_inv t9
  obtain ⟨p10, c10, q10, d10, hs10, hc10, t10, h⟩ := ToksMatch_cons_inv h
  obtain ⟨hc', rfl⟩ := TokMatch_star_inv t10
  obtain ⟨p11, c11, q11, d11, hs11, hc11, t11, h⟩ := ToksMatch_cons_inv h
  obtain ⟨rfl, rfl⟩ := TokMatch_lit_inv t11
  obtain ⟨p12, c12, q12, d12, hs12, hc12, t12, h⟩ := ToksMatch_cons_inv h
  obtain ⟨hv, rfl⟩ := TokMatch_capPlus_inv t12
  obtain ⟨p13, c13, q13, d13, hs13, hc13, t13, h⟩ := ToksMatch_cons_inv h
  obtain ⟨rfl, rfl⟩ := TokMatch_lit_inv t13
  obtain ⟨p14, c14, q14, d14, hs14, hc14, t14, h⟩ := ToksMatch_cons_inv h
  obtain ⟨hd, rfl⟩ := TokMatch_star_inv t14
  obtain ⟨p15, c15, q15, d15, hs15, hc15, t15, h⟩ := ToksMatch_cons_inv h
  obtain ⟨rfl, rfl⟩ := TokMatch_lit_inv t15
  obtain ⟨p16, c16, q16, d16, hs16, hc16, t16, h⟩ := ToksMatch_cons_inv h
  obtain ⟨hht, rfl⟩ := TokMatch_capPlus_inv t16
  obtain ⟨p17, c17, q17, d17, hs17, hc17, t17, h⟩ := ToksMatch_cons_inv h
  obtain ⟨rfl, rfl⟩ := TokMatch_lit_inv t17
  obtain ⟨p18, c18, q18, d18, hs18, hc18, t18, h⟩ := ToksMatch_cons_inv h
  obtain ⟨he, rfl⟩ := TokMatch_star_inv t18
  obtain ⟨p19, c19, q19, d19, hs19, hc19, t19, h⟩ := ToksMatch_cons_inv h
  obtain ⟨rfl, rfl⟩ := TokMatch_lit_inv t19
  obtain ⟨p20, c20, q20, d20, hs20, hc20, t20, h⟩ := ToksMatch_cons_inv h
  obtain ⟨hw, rfl⟩ := TokMatch_capPlus_inv t20
  obtain ⟨p21, c21, q21, d21, hs21, hc21, t21, h⟩ := ToksMatch_cons_inv h
  obtain ⟨rfl, rfl⟩ := TokMatch_lit_inv t21
  obtain ⟨p22, c22, q22, d22, hs22, hc22, t22, h⟩ := ToksMatch_cons_inv h
  obtain ⟨hf, rfl⟩ := TokMatch_star_inv t22
  obtain ⟨p23, c23, q23, d23, hs23, hc23, t23, h⟩ := ToksMatch_cons_inv h
  obtain ⟨rfl, rfl⟩ := TokMatch_lit_inv t23
  obtain ⟨p24, c24, q24, d24, hs24, hc24, t24, h⟩ := ToksMatch_cons_inv h
  obtain rfl := TokMatch_capLazy_inv t24
  obtain ⟨p25, c25, q25, d25, hs25, hc25, t25, h⟩ := ToksMatch_cons_inv h
  obtain ⟨rfl, rfl⟩ := TokMatch_lit_inv t25
  obtain ⟨rfl, rfl⟩ := ToksMatch_nil_inv h
  subst hs1 hs2 hs3 hs4 hs5 hs6 hs7 hs8 hs9 hs10 hs11 hs12 hs13
  subst hs14 hs15 hs16 hs17 hs18 hs19 hs20 hs21 hs22 hs23 hs24 hs25
  subst hc1 hc2 hc3 hc4 hc5 hc6 hc7 hc8 hc9 hc10 hc11 hc12 hc13
  subst hc14 hc15 hc16 hc17 hc18 hc19 hc20 hc21 hc22 hc23 hc24 hc25
  refine ⟨⟨p4, p8, p12, p16, p20, p24⟩, p2, p6, p10, p14, p18, p22,
    ?_, ?_, ha, hb, hc', hd, he, hf, hid, hh, hv, hht, hw⟩
  · simp [tlConsumed, List.append_assoc]
  · simp

/-- Inversion of a `pagePattern` match. -/
theorem ToksMatch_page {consumed : List Char} {caps}
    (h : ToksMatch pagePattern consumed caps) :
    ∃ a wS b hS,
      consumed = strL "<Page" ++ a ++ strL "WIDTH=\"" ++ wS ++ strL "\"" ++ b ++
        strL "HEIGHT=\"" ++ hS ++ strL "\"" ∧
      caps = [wS, hS] ∧ NoGt a ∧ NoGt b ∧ DigitsNE wS ∧ DigitsNE hS := by
  obtain ⟨p1, c1, q1, d1, hs1, hc1, t1, h⟩ := ToksMatch_cons_inv h
  obtain ⟨rfl, rfl⟩ := TokMatch_lit_inv t1
  obtain ⟨p2, c2, q2, d2, hs2, hc2, t2, h⟩ := ToksMatch_cons_inv h
  obtain ⟨ha, rfl⟩ := TokMatch_star_inv t2
  obtain ⟨p3, c3, q3, d3, hs3, hc3, t3, h⟩ := ToksMatch_cons_inv h
  obtain ⟨rfl, rfl⟩ := TokMatch_lit_inv t3
  obtain ⟨p4, c4, q4, d4, hs4, hc4, t4, h⟩ := ToksMatch_cons_inv h
  obtain ⟨hw, rfl⟩ := TokMatch_capPlus_inv t4
  obtain ⟨p5, c5, q5, d5, hs5, hc5, t5, h⟩ := ToksMatch_cons_inv h
  obtain ⟨rfl, rfl⟩ := TokMatch_lit_inv t5
  obtain ⟨p6, c6, q6, d6, hs6, hc6, t6, h⟩ := ToksMatch_cons_inv h
  obtain ⟨hb, rfl⟩ := TokMatch_star_inv t6
  obtain ⟨p7, c7, q7, d7, hs7, hc7, t7, h⟩ := ToksMatch_cons_inv h
  obtain ⟨rfl, rfl⟩ := TokMatch_lit_inv t7
  obtain ⟨p8, c8, q8, d8, hs8, hc8, t8, h⟩ := ToksMatch_cons_inv h
  obtain ⟨hh, rfl⟩ := TokMatch_capPlus_inv t8
  obtain ⟨p9, c9, q9, d9, hs9, hc9, t9, h⟩ := ToksMatch_cons_inv h
  obtain ⟨rfl, rfl⟩ := TokMatch_lit_inv t9
  obtain ⟨rfl, rfl⟩ := ToksMatch_nil_inv h
  subst hs1 hs2 hs3 hs4 hs5 hs6 hs7 hs8 hs9
  subst hc1 hc2 hc3 hc4 hc5 hc6 hc7 hc8 hc9
  refine ⟨p2, p4, p6, p8, ?_, ?_, ha, hb, hw, hh⟩
  · simp [List.append_assoc]
  · simp

/-- Construction of a `pagePattern` match from its shape. -/
theorem pageToksMatch {a b wS hS : List Char} (ha : NoGt a) (hb : NoGt b)
    (hw : DigitsNE wS) (hh : DigitsNE hS) :
    ToksMatch pagePattern
      (strL "<Page" ++ (a ++ (strL "WIDTH=\"" ++ (wS ++ (strL "\"" ++ (b ++
        (strL "HEIGHT=\"" ++ (hS ++ (strL "\"" ++ ([] : List Char))))))))))
      ([] ++ ([] ++ ([] ++ ([wS] ++ ([] ++ ([] ++ ([] ++ ([hS] ++ ([] ++ ([] : List (List Char))))))))))) := by
  refine ToksMatch.cons (TokMatch.lit _) ?_
  refine ToksMatch.cons (TokMatch.star ha) ?_
  refine ToksMatch.cons (TokMatch.lit _) ?_
  refine ToksMatch.cons (TokMatch.capPlus hw.1 hw.2) ?_
  refine ToksMatch.cons (TokMatch.lit _) ?_
  refine ToksMatch.cons (TokMatch.star hb) ?_
  refine ToksMatch.cons (TokMatch.lit _) ?_
  refine ToksMatch.cons (TokMatch.capPlus hh.1 hh.2) ?_
  refine ToksMatch.cons (TokMatch.lit _) ?_
  exact ToksMatch.nil

/-- Inversion of a `stringPattern` match. -/
theorem ToksMatch_string {consumed : List Char} {caps}
    (h : ToksMatch stringPattern consumed caps) :
    ∃ a w,
      consumed = strL "<String" ++ a ++ strL "CONTENT=\"" ++ w ++ strL "\"" ∧
      caps = [w] ∧ NoGt a ∧ NoQ w := by
  obtain ⟨p1, c1, q1, d1, hs1, hc1, t1, h⟩ := ToksMatch_cons_inv h
  obtain ⟨rfl, rfl⟩ := TokMatch_lit_inv t1
  obtain ⟨p2, c2, q2, d2, hs2, hc2, t2, h⟩ := ToksMatch_cons_inv h
  obtain ⟨ha, rfl⟩ := TokMatch_star_inv t2
  obtain ⟨p3, c3, q3, d3, hs3, hc3, t3, h⟩ := ToksMatch_cons_inv h
  obtain ⟨rfl, rfl⟩ := TokMatch_lit_inv t3
  obtain ⟨p4, c4, q4, d4, hs4, hc4, t4, h⟩ := ToksMatch_cons_inv h
  obtain ⟨hw, rfl⟩ := TokMatch_capStar_inv t4
  obtain ⟨p5, c5, q5, d5, hs5, hc5, t5, h⟩ := ToksMatch_cons_inv h
  obtain ⟨rfl, rfl⟩ := TokMatch_lit_inv t5
  obtain ⟨rfl, rfl⟩ := ToksMatch_nil_inv h
  subst hs1 hs2 hs3 hs4 hs5
  subst hc1 hc2 hc3 hc4 hc5
  refine ⟨p2, p4, ?_, ?_, ha, hw⟩
  · simp [List.append_assoc]
  · simp

/-! ### From the parser's loop to the decompositions -/

theorem leadLit_textLine : LeadLit textLinePattern :=
  ⟨strL "<TextLine", _, rfl, by decide⟩

theorem leadLit_page : LeadLit pagePattern :=
  ⟨strL "<Page", _, rfl, by decide⟩

theorem leadLit_string : LeadLit stringPattern :=
  ⟨strL "<String", _, rfl, by decide⟩

theorem leadLit_polygon : LeadLit polygonPattern :=
  ⟨strL "<Polygon", _, rfl, by decide⟩

/-- Inversion of the loop body: a retained line records exactly the six
captures, with the retention condition. -/
theorem lineOfCaps_inv {caps} {tl : TextLine} {tr}
    (h : lineOfCaps caps = some (tl, tr)) :
    ∃ i hS vS htS wS body, caps = [i, hS, vS, htS, wS, body] ∧
      tl = ⟨⟨i⟩, polyOf body, trOf body, natOfDigits hS, natOfDigits vS,
            natOfDigits wS, natOfDigits htS⟩ ∧
      tr = trOf body ∧ polyOf body ≠ "" ∧ trOf body ≠ "" := by
  unfold lineOfCaps at h
  split at h
  next i hS vS htS wS body =>
    split at h
    next hcond =>
      simp only [Option.some.injEq, Prod.mk.injEq] at h
      obtain ⟨htl, htr⟩ := h
      exact ⟨i, hS, vS, htS, wS, body, rfl, htl.symm, htr.symm, hcond.1, hcond.2⟩
    next => simp at h
  next => simp at h

theorem lineOfCaps_tr {caps} {tl : TextLine} {tr}
    (h : lineOfCaps caps = some (tl, tr)) : tr = tl.transcription := by
  obtain ⟨i, hS, vS, htS, wS, body, _, htl, htr, _, _⟩ := lineOfCaps_inv h
  rw [htr, htl]

/-- Members of the accumulated line list arise from the initial accumulator
or from a retained match. -/
theorem foldl_linesStep_mem {l : List (List (List Char))} :
    ∀ {init : List TextLine × List String} {tl : TextLine},
      tl ∈ (l.foldl linesStep init).1 →
      tl ∈ init.1 ∨ ∃ caps ∈ l, ∃ tr, lineOfCaps caps = some (tl, tr) := by
  induction l with
  | nil => intro init tl h; exact Or.inl h
  | cons x xs ih =>
    intro init tl h
    rw [List.foldl_cons] at h
    rcases ih h with hinit | ⟨caps, hcaps, tr, hlc⟩
    · unfold linesStep at hinit
      cases hlc : lineOfCaps x with
      | none =>
        rw [hlc] at hinit
        exact Or.inl hinit
      | some pr =>
        obtain ⟨tl2, tr2⟩ := pr
        rw [hlc] at hinit
        simp only [List.mem_append, List.mem_singleton] at hinit
        rcases hinit with h1 | h2
        · exact Or.inl h1
        · subst h2
          exact Or.inr ⟨x, List.mem_cons_self _ _, tr2, hlc⟩
    · exact Or.inr ⟨caps, List.mem_cons_of_mem _ hcaps, tr, hlc⟩

/-- The transcription accumulator stays the image of the line accumulator. -/
theorem foldl_linesStep_snd {l : List (List (List Char))} :
    ∀ {init : List TextLine × List String},
      init.2 = init.1.map TextLine.transcription →
      (l.foldl linesStep init).2 = (l.foldl linesStep init).1.map TextLine.transcription := by
  induction l with
  | nil => intro init h; exact h
  | cons x xs ih =>
    intro init h
    rw [List.foldl_cons]
    apply ih
    unfold linesStep
    cases hlc : lineOfCaps x with
    | none => simpa using h
    | some pr =>
      obtain ⟨tl2, tr2⟩ := pr
      have htr := lineOfCaps_tr hlc
      simp [h, htr]

theorem parse_text_lines_eq (xml : String) :
    (parse_alto_xml xml).text_lines =
      ((findIterGo textLinePattern xml.data).foldl linesStep ([], [])).1 := rfl

theorem mem_parse_lines {xml : String} {tl : TextLine}
    (h : tl ∈ (parse_alto_xml xml).text_lines) :
    ∃ caps ∈ findIterGo textLinePattern xml.data, ∃ tr, lineOfCaps caps = some (tl, tr) := by
  rw [parse_text_lines_eq] at h
  rcases foldl_linesStep_mem h with h0 | hex
  · cases h0
  · exact hex

/-- Every line of the parse result comes from a `TextLine` occurrence of the
pattern's shape, and records its captures verbatim. -/
theorem parse_line_decomp {xml : String} {tl : TextLine}
    (h : tl ∈ (parse_alto_xml xml).text_lines) :
    ∃ pt : TLParts, TLOcc xml.data pt ∧
      tl = ⟨⟨pt.idS⟩, polyOf pt.body, trOf pt.body, natOfDigits pt.hS, natOfDigits pt.vS,
            natOfDigits pt.wS, natOfDigits pt.htS⟩ ∧
      polyOf pt.body ≠ "" ∧ trOf pt.body ≠ "" := by
  obtain ⟨caps, hcaps, tr, hlc⟩ := mem_parse_lines h
  obtain ⟨i, hS, vS, htS, wS, body, rfl, htl, htr, hpoly, htrne⟩ := lineOfCaps_inv hlc
  have hchain := findIterAux_sound leadLit_textLine (xml.data.length + 1) xml.data
  obtain ⟨pre, consumed, rest, hx, hm⟩ := ChainDecomp_mem hchain hcaps
  obtain ⟨pt, a, b, c, d, e, f, hcons, hcapseq, ha, hb, hc, hd, he, hf,
    hq, hdh, hdv, hdht, hdw⟩ := ToksMatch_textLine hm
  simp only [List.cons.injEq, and_true] at hcapseq
  obtain ⟨hi, hhS, hvS, hhtS, hwS, hbody⟩ := hcapseq
  subst hi hhS hvS hhtS hwS hbody
  refine ⟨pt, ⟨pre, a, b, c, d, e, f, rest, ?_, ha, hb, hc, hd, he, hf, hq, hdh, hdv, hdht, hdw⟩, htl, hpoly, htrne⟩
  rw [hx, hcons]
  simp [List.append_assoc]

/-- Page-dimension dichotomy: either the subject contains a `Page` tag of
the pattern's shape and the parsed dimensions are its captured values, or no
such tag exists and the defaults are used. -/
theorem pageDims_spec (s : List Char) :
    (∃ wS hS, PageOcc s wS hS ∧ pageDims s = (natOfDigits wS, natOfDigits hS)) ∨
    ((¬ ∃ wS hS, PageOcc s wS hS) ∧ pageDims s = (6192, 5432)) := by
  cases hss : searchSplit pagePattern s with
  | some r =>
    obtain ⟨pre, caps, rest⟩ := r
    obtain ⟨consumed, hs, hm⟩ := searchSplit_sound hss
    obtain ⟨a, wS, b, hS, hcons, hcaps, ha, hb, hw, hh⟩ := ToksMatch_page hm
    subst hcaps
    left
    refine ⟨wS, hS, ⟨pre, a, b, rest, ?_, ha, hb, hw, hh⟩, ?_⟩
    · rw [hs, hcons]
      simp [List.append_assoc]
    · unfold pageDims
      rw [hss]
  | none =>
    right
    constructor
    · rintro ⟨wS, hS, pre, a, b, post, hx, ha, hb, hw, hh⟩
      have hm := pageToksMatch ha hb hw hh
      have h1 := matchToks_isSome hm post
      have h2 := searchSplit_isSome pre h1
      have hsubj : pre ++ ((strL "<Page" ++ (a ++ (strL "WIDTH=\"" ++ (wS ++
          (strL "\"" ++ (b ++ (strL "HEIGHT=\"" ++ (hS ++ (strL "\"" ++ ([] : List Char)))))))))) ++ post) = s := by
        rw [hx]
        simp [List.append_assoc]
      rw [hsubj, hss] at h2
      simp at h2
    · unfold pageDims
      rw [hss]

end AltoSpec

set_option maxRecDepth 200000

namespace AltoSpec

/-- The `findall` results of the `String` pattern come from successive
`String` elements, in source order. -/
theorem strChain_of_chainDecomp : ∀ {capsList} {s : List Char},
    ChainDecomp stringPattern s capsList →
    StrChainFrom s (capsList.filterMap (fun caps => caps.head?)) := by
  intro capsList
  induction capsList with
  | nil => intro s _; trivial
  | cons caps more ih =>
    intro s hchain
    obtain ⟨pre, consumed, tail, hs, hm, hrest⟩ := hchain
    obtain ⟨a, w, hcons, hcapseq, ha, hw⟩ := ToksMatch_string hm
    subst hcapseq
    simp only [List.filterMap_cons, List.head?]
    refine ⟨pre, a, tail, ?_, ha, hw, ih hrest⟩
    rw [hs, hcons]
    simp [List.append_assoc]

theorem strChain_findall (s : List Char) :
    StrChainFrom s (findall1 stringPattern s) :=
  strChain_of_chainDecomp (findIterAux_sound leadLit_string (s.length + 1) s)

end AltoSpec

namespace ParserModel

open AltoSpec

theorem foldl_add_eq_sum (l : List ℚ) : ∀ a : ℚ, l.foldl (· + ·) a = a + l.sum := by
  induction l with
  | nil => intro a; simp
  | cons x xs ih => intro a; simp [ih, add_assoc]

/-- The modelled confidence rule: the mean of the declared scores when some
exist (exactly, hence within the `1e-6` tolerance), absent when none do. -/
theorem lineConfidence_spec (ws : List (String × Option ℚ)) :
    (declaredConfs ws ≠ [] →
      ∃ q : ℚ, lineConfidence ws = some q ∧
        |q - arithMean (declaredConfs ws)| ≤ 1 / 1000000) ∧
    (declaredConfs ws = [] → lineConfidence ws = none) := by
  constructor
  · intro hne
    refine ⟨(declaredConfs ws).foldl (· + ·) 0 / ((declaredConfs ws).length : ℚ), ?_, ?_⟩
    · simp only [lineConfidence]
      rw [if_neg hne]
    · rw [arithMean, foldl_add_eq_sum, zero_add, sub_self, abs_zero]
      norm_num
  · intro h0
    simp only [lineConfidence]
    rw [if_pos h0]

theorem processAltoLine_conf {attrs body : List Char} {tl : PTextLine}
    (h : processAltoLine attrs body = some tl) :
    tl.confidence = lineConfidence (lineWords body) := by
  unfold processAltoLine at h
  split at h
  next i hp vp w ht =>
    split at h
    next =>
      simp only [Option.some.injEq] at h
      rw [← h]
    next => simp at h
  next => simp at h

theorem leadLit_modelLine : LeadLit modelLinePattern :=
  ⟨strL "<TextLine", _, rfl, by decide⟩

/-- Inversion of a `modelLinePattern` match: the consumed text is exactly a
`TextLine` element, and the captures are its attribute region and body. -/
theorem ToksMatch_modelLine {consumed : List Char} {caps}
    (h : ToksMatch modelLinePattern consumed caps) :
    ∃ attrs body,
      consumed = strL "<TextLine" ++ attrs ++ strL ">" ++ body ++ strL "</TextLine>" ∧
      caps = [attrs, body] ∧ NoGt attrs := by
  obtain ⟨p1, c1, q1, d1, hs1, hc1, t1, h⟩ := ToksMatch_cons_inv h
  obtain ⟨rfl, rfl⟩ := TokMatch_lit_inv t1
  obtain ⟨p2, c2, q2, d2, hs2, hc2, t2, h⟩ := ToksMatch_cons_inv h
  obtain ⟨ha, rfl⟩ := TokMatch_capStar_inv t2
  obtain ⟨p3, c3, q3, d3, hs3, hc3, t3, h⟩ := ToksMatch_cons_inv h
  obtain ⟨rfl, rfl⟩ := TokMatch_lit_inv t3
  obtain ⟨p4, c4, q4, d4, hs4, hc4, t4, h⟩ := ToksMatch_cons_inv h
  obtain rfl := TokMatch_capLazy_inv t4
  obtain ⟨p5, c5, q5, d5, hs5, hc5, t5, h⟩ := ToksMatch_cons_inv h
  obtain ⟨rfl, rfl⟩ := TokMatch_lit_inv t5
  obtain ⟨rfl, rfl⟩ := ToksMatch_nil_inv h
  subst hs1 hs2 hs3 hs4 hs5
  subst hc1 hc2 hc3 hc4 hc5
  refine ⟨p2, p4, ?_, ?_, ha⟩
  · simp [List.append_assoc]
  · simp

/-- Every line of the modelled ALTO parse was read from a `TextLine`
occurrence in the input, by `processAltoLine` on that occurrence's attribute
region and body. -/
theorem mem_model_lines {xml : String} {tl : PTextLine}
    (h : tl ∈ (parse_alto_xml xml).text_lines) :
    ∃ attrs body, MLOcc xml.data attrs body ∧
      processAltoLine attrs body = some tl := by
  have h2 : tl ∈ (findIterGo modelLinePattern xml.data).filterMap
      (fun caps =>
        match caps with
        | [attrs, body] => processAltoLine attrs body
        | _ => none) := h
  rw [List.mem_filterMap] at h2
  obtain ⟨caps, hmem, hc⟩ := h2
  have hchain := findIterAux_sound leadLit_modelLine (xml.data.length + 1) xml.data
  obtain ⟨pre, consumed, rest, hx, hm⟩ := ChainDecomp_mem hchain hmem
  obtain ⟨attrs, body, hcons, hcapseq, hng⟩ := ToksMatch_modelLine hm
  subst hcapseq
  refine ⟨attrs, body, ⟨pre, rest, ?_, hng⟩, hc⟩
  rw [hx, hcons]
  simp [List.append_assoc]

/-- C2: every line of the (spec-modelled) ALTO parse was read from a
`TextLine` occurrence in the input; its confidence is derived from that
occurrence's own word elements — the arithmetic mean of the per-word scores
they declare, within `1e-6`, when any are declared, and absent (`none`, not
zero) when none are. -/
theorem C2_confidence (xml : String) (tl : PTextLine)
    (h : tl ∈ (parse_alto_xml xml).text_lines) :
    ∃ attrs body : List Char,
      MLOcc xml.data attrs body ∧
      processAltoLine attrs body = some tl ∧
      tl.confidence = lineConfidence (lineWords body) ∧
      (declaredConfs (lineWords body) ≠ [] →
        ∃ q : ℚ, tl.confidence = some q ∧
          |q - arithMean (declaredConfs (lineWords body))| ≤ 1 / 1000000) ∧
      (declaredConfs (lineWords body) = [] → tl.confidence = none) := by
  obtain ⟨attrs, body, hocc, hline⟩ := mem_model_lines h
  have hconf := processAltoLine_conf hline
  obtain ⟨hmean, habs⟩ := lineConfidence_spec (lineWords body)
  refine ⟨attrs, body, hocc, hline, hconf, ?_, ?_⟩
  · intro hne
    obtain ⟨q, hq, hqa⟩ := hmean hne
    exact ⟨q, by rw [hconf, hq], hqa⟩
  · intro h0
    rw [hconf]
    exact habs h0

/-- Witness for C2 at two concrete documents: one whose words carry `WC`
`0.5` and `1.0` (line confidence `3/4`), one whose words declare no score
(confidence absent). -/
theorem C2_confidence_witness :
    altoModelLine.confidence = some (3 / 4 : ℚ) ∧
    altoNoConfLine.confidence = none ∧
    (∃ attrs body : List Char,
      MLOcc altoModelInput.data attrs body ∧
      processAltoLine attrs body = some altoModelLine ∧
      altoModelLine.confidence = lineConfidence (lineWords body) ∧
      (declaredConfs (lineWords body) ≠ [] →
        ∃ q : ℚ, altoModelLine.confidence = some q ∧
          |q - arithMean (declaredConfs (lineWords body))| ≤ 1 / 1000000) ∧
      (declaredConfs (lineWords body) = [] → altoModelLine.confidence = none)) ∧
    (∃ attrs body : List Char,
      MLOcc altoNoConfInput.data attrs body ∧
      processAltoLine attrs body = some altoNoConfLine ∧
      altoNoConfLine.confidence = lineConfidence (lineWords body) ∧
      (declaredConfs (lineWords body) ≠ [] →
        ∃ q : ℚ, altoNoConfLine.confidence = some q ∧
          |q - arithMean (declaredConfs (lineWords body))| ≤ 1 / 1000000) ∧
      (declaredConfs (lineWords body) = [] → altoNoConfLine.confidence = none)) :=
  ⟨rfl, rfl,
   C2_confidence altoModelInput altoModelLine (by with_unfolding_all decide),
   C2_confidence altoNoConfInput altoNoConfLine (by with_unfolding_all decide)⟩

/-- C6: detect-and-parse is pure dispatch — on an ALTO-signature input it
returns exactly the ALTO parser's result, on a PAGE-signature input exactly
the PAGE parser's result, and fails with `UnsupportedFormat` otherwise. -/
theorem C6_dispatch (s : String) :
    (isAltoDoc s = true →
      detect_and_parse s = .ok (parse_alto_xml s)) ∧
    (isAltoDoc s = false → isPageDoc s = true →
      detect_and_parse s = .ok (parse_page_xml s)) ∧
    (isAltoDoc s = false → isPageDoc s = false →
      detect_and_parse s = .error .unsupportedFormat) := by
  refine ⟨?_, ?_, ?_⟩
  · intro h1
    unfold detect_and_parse
    rw [if_pos h1]
  · intro h1 h2
    unfold detect_and_parse
    rw [if_neg (by simp [h1]), if_pos h2]
  · intro h1 h2
    unfold detect_and_parse
    rw [if_neg (by simp [h1]), if_neg (by simp [h2])]

/-- Witness for C6 on concrete ALTO, PAGE XML and unclassifiable inputs. -/
theorem C6_dispatch_witness :
    detect_and_parse altoModelInput = .ok (parse_alto_xml altoModelInput) ∧
    detect_and_parse pageModelInput = .ok (parse_page_xml pageModelInput) ∧
    detect_and_parse plainInput = .error .unsupportedFormat :=
  ⟨(C6_dispatch altoModelInput).1 (by with_unfolding_all decide),
   (C6_dispatch pageModelInput).2.1 (by with_unfolding_all decide) (by with_unfolding_all decide),
   (C6_dispatch plainInput).2.2 (by with_unfolding_all decide) (by with_unfolding_all decide)⟩

end ParserModel

namespace AltoSpec

/-- C1: every `TextLine` in the result of `parse_alto_xml` has a non-empty
polygon and a non-empty transcription; a line element missing either never
reaches the output (the parse is total, so nothing is raised). -/
theorem C1_retention (xml : String) (tl : TextLine)
    (h : tl ∈ (parse_alto_xml xml).text_lines) :
    tl.polygon ≠ "" ∧ tl.transcription ≠ "" := by
  obtain ⟨caps, _, tr, hlc⟩ := mem_parse_lines h
  obtain ⟨i, hS, vS, htS, wS, body, _, htl, _, hpoly, htrne⟩ := lineOfCaps_inv hlc
  subst htl
  exact ⟨hpoly, htrne⟩

/-- Witness for C1 at a concrete document. -/
theorem C1_retention_witness :
    wfLine ∈ (parse_alto_xml wfInput).text_lines ∧
    wfLine.polygon ≠ "" ∧ wfLine.transcription ≠ "" := by
  have h : wfLine ∈ (parse_alto_xml wfInput).text_lines := by decide
  exact ⟨h, C1_retention wfInput wfLine h⟩

/-- Counterexample for C3: markup truncated inside the opening tag — from
which no line structure is extractable — does not fail with any
`MarkupError`; `parse_alto_xml` returns a silent empty result (there is no
error path in the function at all). -/
theorem C3_silent_empty_cx :
    parse_alto_xml malformedInput = ⟨[], 6192, 5432, ""⟩ := by decide

/-- C3 as amended: `parse_alto_xml` never raises; whenever the extraction
pattern finds no line (malformed markup and zero-line documents alike), the
result simply has empty `text_lines` and empty `full_text`. -/
theorem C3_no_error_amended (xml : String)
    (h : findIterGo textLinePattern xml.data = []) :
    (parse_alto_xml xml).text_lines = [] ∧ (parse_alto_xml xml).full_text = "" := by
  constructor
  · rw [parse_text_lines_eq, h]
    rfl
  · show String.intercalate "\n"
      ((findIterGo textLinePattern xml.data).foldl linesStep ([], [])).2 = ""
    rw [h]
    rfl

/-- Witness for the amended C3 at the malformed input. -/
theorem C3_no_error_amended_witness :
    (parse_alto_xml malformedInput).text_lines = [] ∧
    (parse_alto_xml malformedInput).full_text = "" :=
  C3_no_error_amended malformedInput (by decide)

/-- Counterexample for C4: a retained line whose explicit bounding
attributes are taken verbatim even though they contradict the polygon —
the polygon's bounding box is `(100, 100, 100, 50)` while the line carries
`hpos = vpos = 0`, `width = height = 5`; no rounding tolerance is checked. -/
theorem C4_bbox_cx :
    (parse_alto_xml mismatchInput).text_lines = [mismatchLine] ∧
    ParserModel.boundingBoxFromPolygon (ParserModel.polygonPoints mismatchLine.polygon) =
      some (100, 100, 100, 50) ∧
    mismatchLine.hpos = 0 ∧ mismatchLine.vpos = 0 ∧
    mismatchLine.width = 5 ∧ mismatchLine.height = 5 :=
  ⟨by decide, by decide, rfl, rfl, rfl, rfl⟩

/-- C4 as amended: every retained line's `hpos`, `vpos`, `width`, `height`
are exactly the integer values of the element's explicit `HPOS`, `VPOS`,
`WIDTH`, `HEIGHT` attributes; the polygon is carried as an unparsed string
and no geometry is ever derived from it or checked against it. -/
theorem C4_geometry_amended (xml : String) (tl : TextLine)
    (h : tl ∈ (parse_alto_xml xml).text_lines) :
    ∃ pt : TLParts, TLOcc xml.data pt ∧
      tl.hpos = natOfDigits pt.hS ∧ tl.vpos = natOfDigits pt.vS ∧
      tl.width = natOfDigits pt.wS ∧ tl.height = natOfDigits pt.htS ∧
      tl.polygon = polyOf pt.body := by
  obtain ⟨pt, hocc, htl, _, _⟩ := parse_line_decomp h
  subst htl
  exact ⟨pt, hocc, rfl, rfl, rfl, rfl, rfl⟩

/-- Witness for the amended C4 at a concrete document. -/
theorem C4_geometry_amended_witness :
    ∃ pt : TLParts, TLOcc mismatchInput.data pt ∧
      mismatchLine.hpos = natOfDigits pt.hS ∧ mismatchLine.vpos = natOfDigits pt.vS ∧
      mismatchLine.width = natOfDigits pt.wS ∧ mismatchLine.height = natOfDigits pt.htS ∧
      mismatchLine.polygon = polyOf pt.body :=
  C4_geometry_amended mismatchInput mismatchLine (by decide)

/-- Counterexample for C5: a `Page` element declaring `HEIGHT` before
`WIDTH` — the markup declares both dimensions (they occur verbatim in the
input), yet the parse returns the defaults `6192 × 5432`. -/
theorem C5_reversed_attrs_cx :
    (strL "WIDTH=\"200\"" <:+: swappedPageInput.data) ∧
    (strL "HEIGHT=\"100\"" <:+: swappedPageInput.data) ∧
    (parse_alto_xml swappedPageInput).page_width = 6192 ∧
    (parse_alto_xml swappedPageInput).page_height = 5432 :=
  ⟨by decide, by decide, by decide, by decide⟩

/-- C5 as amended: the parsed page dimensions equal the declared `WIDTH`
and `HEIGHT` whenever the page tag declares them with `WIDTH` listed before
`HEIGHT` (the only shape the extraction pattern accepts); in every other
case — including declared-but-reversed attributes — the defaults
`6192 × 5432` are returned, and no input is an error. -/
theorem C5_page_dims_amended (xml : String) :
    (∃ wS hS, PageOcc xml.data wS hS ∧
      (parse_alto_xml xml).page_width = natOfDigits wS ∧
      (parse_alto_xml xml).page_height = natOfDigits hS) ∨
    ((¬ ∃ wS hS, PageOcc xml.data wS hS) ∧
      (parse_alto_xml xml).page_width = 6192 ∧
      (parse_alto_xml xml).page_height = 5432) := by
  have h1 : (parse_alto_xml xml).page_width = (pageDims xml.data).1 := rfl
  have h2 : (parse_alto_xml xml).page_height = (pageDims xml.data).2 := rfl
  rcases pageDims_spec xml.data with ⟨wS, hS, hocc, heq⟩ | ⟨hno, heq⟩
  · exact Or.inl ⟨wS, hS, hocc, by rw [h1, heq], by rw [h2, heq]⟩
  · exact Or.inr ⟨hno, by rw [h1, heq], by rw [h2, heq]⟩

/-- Witness for the amended C5: declared-in-order dimensions are parsed, at
a concrete document. -/
theorem C5_page_dims_amended_witness :
    (parse_alto_xml wfInput).page_width = 100 ∧
    (parse_alto_xml wfInput).page_height = 200 := by
  rcases C5_page_dims_amended wfInput with ⟨wS, hS, _, hw, hh⟩ | ⟨hno, _, _⟩
  · refine ⟨?_, ?_⟩ <;> decide
  · exact absurd ⟨strL "100", strL "200", strL "", strL " ", strL " ",
      strL "><TextLine ID=\"a\" HPOS=\"1\" VPOS=\"2\" HEIGHT=\"3\" WIDTH=\"4\"><Polygon POINTS=\"p\"/><String CONTENT=\"sedan\"/><String CONTENT=\"han\"/></TextLine></Page>",
      by decide, by decide, by decide, by decide, by decide⟩ hno

/-- C7: every retained line's transcription is the single-space join, in
source order, of the `CONTENT` texts of the `String` (word) elements of its
body; the witness shows two word elements `sedan` and `han` joining to
`"sedan han"`. -/
theorem C7_word_join (xml : String) (tl : TextLine)
    (h : tl ∈ (parse_alto_xml xml).text_lines) :
    ∃ pt : TLParts, TLOcc xml.data pt ∧
      tl.transcription = String.intercalate " "
        ((findall1 stringPattern pt.body).map (fun w => (⟨w⟩ : String))) ∧
      StrChainFrom pt.body (findall1 stringPattern pt.body) := by
  obtain ⟨pt, hocc, htl, _, _⟩ := parse_line_decomp h
  subst htl
  exact ⟨pt, hocc, rfl, strChain_findall pt.body⟩

/-- Witness for C7: the `sedan` / `han` document. -/
theorem C7_word_join_witness :
    wfLine.transcription = "sedan han" ∧
    ∃ pt : TLParts, TLOcc wfInput.data pt ∧
      wfLine.transcription = String.intercalate " "
        ((findall1 stringPattern pt.body).map (fun w => (⟨w⟩ : String))) ∧
      StrChainFrom pt.body (findall1 stringPattern pt.body) :=
  ⟨rfl, C7_word_join wfInput wfLine (by decide)⟩

/-- C8: `full_text` is exactly the newline-join of the retained lines\'
transcriptions, in document order. -/
theorem C8_full_text (xml : String) :
    (parse_alto_xml xml).full_text =
      String.intercalate "\n" ((parse_alto_xml xml).text_lines.map TextLine.transcription) := by
  show String.intercalate "\n"
      ((findIterGo textLinePattern xml.data).foldl linesStep ([], [])).2 =
    String.intercalate "\n"
      (((findIterGo textLinePattern xml.data).foldl linesStep ([], [])).1.map TextLine.transcription)
  rw [foldl_linesStep_snd rfl]

/-- C10: a `TextLine` is materialized only from an element whose opening
tag lists `ID`, `HPOS`, `VPOS`, `HEIGHT`, `WIDTH` in exactly that relative
order (the decomposition exhibits the ordered occurrence each retained line
came from), and a complete, well-formed element whose `WIDTH` precedes its
`HEIGHT` produces no line at all. -/
theorem C10_attr_order :
    (∀ (xml : String) (tl : TextLine), tl ∈ (parse_alto_xml xml).text_lines →
      ∃ pt : TLParts, TLOcc xml.data pt ∧
        tl.id = (⟨pt.idS⟩ : String) ∧ tl.hpos = natOfDigits pt.hS ∧
        tl.vpos = natOfDigits pt.vS ∧ tl.height = natOfDigits pt.htS ∧
        tl.width = natOfDigits pt.wS) ∧
    (parse_alto_xml swappedInput).text_lines = [] := by
  constructor
  · intro xml tl h
    obtain ⟨pt, hocc, htl, _, _⟩ := parse_line_decomp h
    subst htl
    exact ⟨pt, hocc, rfl, rfl, rfl, rfl, rfl⟩
  · decide

/-- Witness for C10's universal part at a concrete retained line. -/
theorem C10_attr_order_witness :
    ∃ pt : TLParts, TLOcc wfInput.data pt ∧
      wfLine.id = (⟨pt.idS⟩ : String) ∧ wfLine.hpos = natOfDigits pt.hS ∧
      wfLine.vpos = natOfDigits pt.vS ∧ wfLine.height = natOfDigits pt.htS ∧
      wfLine.width = natOfDigits pt.wS :=
  C10_attr_order.1 wfInput wfLine (by decide)

end AltoSpec
